import Mathlib

/-
Verification of the httpsrv expectation-matching and rule-lifecycle engine
(module httpsrv/httpsrv.py): expectations, rules, the rule store
(`_rules` one-shot / `_always_rules` persistent), `Server.assert_no_pending`,
`Server.reset` and the request dispatcher `_TornadoHandler.prepare`.

Modelling conventions:
- byte strings are `List Nat` (each entry one byte);
- a decoded request carries the fields the handler reads (`method`, `uri`,
  `headers`, `body`) together with the library-produced derived views the
  content checks read: `bodyJson` (the outcome of
  `json.loads(request.body.decode('utf8'))`: `none` when decoding or parsing
  raises `ValueError`, faithful to the `try`/`except ValueError` in
  `_JsonExpectation.match_content`), `arguments` (tornado form fields) and
  `files` (tornado multipart files);
- Python `dict` equality on parsed JSON and form data is modelled on
  association lists with key-lookup based equality (`jeq`, `dict_eq_form`),
  insensitive to key order, as `==` is on Python dicts;
- a `Rule` carries an identity tag `rid` standing for the Python object
  identity that default `==` (hence `list.remove` and `in`) compares;
  registration creates a fresh object per rule, so reachable stores have
  pairwise distinct `rid`s;
- the dispatcher `prepare` returns the mutated store together with the
  ordered list of its observable effects, in program order: removal of the
  consumed one-shot rule, then the written response; `Effect.raised` records
  the `AttributeError` that `_respond` hits when `response` is `None`.
-/

namespace Httpsrv

/-- UTF-8 encoding of one Unicode code point, as byte values. -/
def utf8EncodeCharNat (c : Nat) : List Nat :=
  if c < 0x80 then [c]
  else if c < 0x800 then
    [0xC0 ||| (c >>> 6), 0x80 ||| (c &&& 0x3F)]
  else if c < 0x10000 then
    [0xE0 ||| (c >>> 12), 0x80 ||| ((c >>> 6) &&& 0x3F), 0x80 ||| (c &&& 0x3F)]
  else
    [0xF0 ||| (c >>> 18), 0x80 ||| ((c >>> 12) &&& 0x3F),
     0x80 ||| ((c >>> 6) &&& 0x3F), 0x80 ||| (c &&& 0x3F)]

/-- Model of Python `str.encode('utf-8')`: the UTF-8 bytes of a string. -/
def encodeUtf8 (s : String) : List Nat :=
  (s.data.map (fun c => utf8EncodeCharNat c.toNat)).flatten

/-- Parsed JSON documents, the values `json.loads` produces: scalars, arrays
and objects (objects as association lists; `json.loads` never produces
duplicate keys). -/
inductive Json where
  | null : Json
  | bool (b : Bool) : Json
  | num (n : Int) : Json
  | str (s : String) : Json
  | arr (elems : List Json) : Json
  | obj (fields : List (String × Json)) : Json

/-- Association-list lookup, the model of Python `d[k]` / `d.get(k)`. -/
def alook {α : Type} (k : String) : List (String × α) → Option α
  | [] => none
  | (k₂, v) :: rest => if k₂ == k then some v else alook k rest

/-- Whether a key is present in an association list (Python `k in d`). -/
def has_key {α : Type} (k : String) : List (String × α) → Bool
  | [] => false
  | (k₂, _) :: rest => k == k₂ || has_key k rest

/-- Every key of the first association list is present in the second. -/
def keys_sub (xs ys : List (String × Json)) : Bool :=
  match xs with
  | [] => true
  | (k, _) :: rest => has_key k ys && keys_sub rest ys

mutual

/-- Model of Python `==` between two parsed JSON values: recursive structural
equality, with object comparison by key lookup (order of the fields is
irrelevant), exactly as `dict.__eq__` behaves on `json.loads` results. -/
def jeq : Json → Json → Bool
  | Json.null, Json.null => true
  | Json.bool a, Json.bool b => a == b
  | Json.num a, Json.num b => a == b
  | Json.str a, Json.str b => a == b
  | Json.arr xs, Json.arr ys => jeq_list xs ys
  | Json.obj xs, Json.obj ys => jeq_sub xs ys && keys_sub ys xs
  | _, _ => false
termination_by a b => sizeOf a + sizeOf b

/-- Pointwise `jeq` on two JSON arrays of the same length. -/
def jeq_list : List Json → List Json → Bool
  | [], [] => true
  | x :: xs, y :: ys => jeq x y && jeq_list xs ys
  | _, _ => false
termination_by xs ys => sizeOf xs + sizeOf ys

/-- Every field of the first object has a `jeq`-equal field in the second. -/
def jeq_sub : List (String × Json) → List (String × Json) → Bool
  | [], _ => true
  | (k, v) :: xs, ys => jeq_mem k v ys && jeq_sub xs ys
termination_by xs ys => sizeOf xs + sizeOf ys

/-- Some field of the object has the given key and a `jeq`-equal value. -/
def jeq_mem (k : String) (v : Json) : List (String × Json) → Bool
  | [] => false
  | (k₂, w) :: ys => (k == k₂ && jeq v w) || jeq_mem k v ys
termination_by ys => sizeOf v + sizeOf ys

end

/-- One uploaded file as tornado presents it: `file.filename`, `file.body`. -/
structure HttpFile where
  filename : String
  body : List Nat
  deriving DecidableEq

/-- A decoded request as `_TornadoHandler` hands it to the expectations:
`method`, `uri`, `headers`, raw `body` bytes, plus the derived views —
`bodyJson` is the outcome of `json.loads(body.decode('utf8'))` (`none` when
that raises `ValueError`), `arguments` are tornado's decoded form fields,
`files` its decoded multipart uploads. -/
structure Request where
  method : String
  uri : String
  headers : List (String × String)
  body : List Nat
  bodyJson : Option Json
  arguments : List (String × List (List Nat))
  files : List (String × List HttpFile)

/-- The content-mode part of an expectation: one constructor per
`_Expectation` subclass (`_AnyExpectation`, `_TextExpectation`,
`_JsonExpectation`, `_FormExpectation`, `_FilesExpectation`), carrying the
constructor arguments each subclass stores. -/
inductive Content where
  | anyC : Content
  | textC (text : String) : Content
  | jsonC (json : Json) : Content
  | formC (form : List (String × List String)) : Content
  | filesC (files : List (String × List (String × List Nat)))
      (form : Option (List (String × List String))) : Content

/-- The common `_Expectation` state: `method`, `path` (`none` models Python
`None`; note Python treats the empty string as falsy exactly like `None` in
`_match_path`), `headers` (`headers or {}`), and the content mode. -/
structure Expectation where
  method : String
  path : Option String
  headers : List (String × String)
  content : Content

/-- `_Expectation._match_method`: `self.method == request.method`. -/
def match_method (e : Expectation) (r : Request) : Bool :=
  e.method == r.method

/-- `_Expectation._match_path`:
`self.path == request.uri if self.path else True` — both `None` and the
empty string are falsy, so both mean "any path". -/
def match_path (e : Expectation) (r : Request) : Bool :=
  match e.path with
  | none => true
  | some p => if p == "" then true else p == r.uri

/-- `_Expectation._match_headers`: every expected header must be present on
the request with an equal value; extra request headers are ignored. -/
def match_headers (e : Expectation) (r : Request) : Bool :=
  e.headers.all (fun kv =>
    match alook kv.1 r.headers with
    | some v => kv.2 == v
    | none => false)

/-- `_JsonExpectation.match_content`: `self.json == json.loads(...)` inside
`try`/`except ValueError: return False`; the request field `bodyJson` is the
parse outcome, `none` when `ValueError` was raised. -/
def json_match_content (expected : Json) (parsed : Option Json) : Bool :=
  match parsed with
  | some v => jeq expected v
  | none => false

/-- `_FormExpectation.__init__`: every expected field value is encoded with
`v.encode('utf-8')`. -/
def form_encoded (form : List (String × List String)) :
    List (String × List (List Nat)) :=
  form.map (fun kv => (kv.1, kv.2.map encodeUtf8))

/-- Python `dict` equality between the encoded expected form and
`request.arguments`: same key set, and equal value lists key by key
(their internal order matters, as for Python lists). -/
def dict_eq_form (xs ys : List (String × List (List Nat))) : Bool :=
  xs.all (fun kv => alook kv.1 ys == some kv.2) &&
    ys.all (fun kv => (alook kv.1 xs).isSome)

/-- `_FilesExpectation._file_in_uploaded`: some uploaded file under the field
has the given filename and body (the Python loop returns `None`, treated as
false, when nothing matches). -/
def file_in_uploaded (filename : String) (contents : List Nat)
    (uploaded : List HttpFile) : Bool :=
  uploaded.any (fun f => f.filename == filename && f.body == contents)

/-- `_FilesExpectation._compare_files`: every expected
(filename, contents) pair has a matching uploaded file. -/
def compare_files (expected : List (String × List Nat))
    (uploaded : List HttpFile) : Bool :=
  expected.all (fun fc => file_in_uploaded fc.1 fc.2 uploaded)

/-- The per-field loop of `_FilesExpectation.match_content`: for every
expected field, `request.files.get(field)` must be present and non-empty
(`if not uploaded: return False`) and `_compare_files` must pass. -/
def files_fields_ok (files : List (String × List (String × List Nat)))
    (r : Request) : Bool :=
  files.all (fun fe =>
    match alook fe.1 r.files with
    | some uploaded => !uploaded.isEmpty && compare_files fe.2 uploaded
    | none => false)

/-- Python truthiness of the optional `form` argument of
`_FilesExpectation`: `None` and the empty dict are falsy. -/
def form_truthy : Option (List (String × List String)) → Bool
  | none => false
  | some f => !f.isEmpty

/-- `match_content` of each `_Expectation` subclass, by content mode:
`_AnyExpectation` is always true; `_TextExpectation` compares
`self.text == request.body` with `self.text = text.encode('utf-8')`;
`_JsonExpectation` as in `json_match_content`; `_FormExpectation` compares
`self.form == request.arguments`; `_FilesExpectation` first checks the
nested form constraint when `self.form` is truthy, then the files loop. -/
def match_content (c : Content) (r : Request) : Bool :=
  match c with
  | Content.anyC => true
  | Content.textC t => encodeUtf8 t == r.body
  | Content.jsonC j => json_match_content j r.bodyJson
  | Content.formC f => dict_eq_form (form_encoded f) r.arguments
  | Content.filesC files form =>
      (if form_truthy form
       then dict_eq_form (form_encoded (form.getD [])) r.arguments
       else true)
      && files_fields_ok files r

/-- `_Expectation.matches`: method, then path, then headers, then the
content check, all short-circuit conjoined. -/
def Expectation.matches (e : Expectation) (r : Request) : Bool :=
  match_method e r && match_path e r && match_headers e r
    && match_content e.content r

/-- `_Response`: status `code`, `headers or {}`, and optional body bytes. -/
structure Response where
  code : Nat
  headers : List (String × String)
  bytes : Option (List Nat)

/-- A `Rule`: its `_expectation`, its `response` (`None` until one of the
shaping calls runs), and an identity tag `rid` modelling the Python object
identity that default `==` compares; registration always creates a fresh
object, so every reachable store has pairwise distinct `rid`s. -/
structure Rule where
  rid : Nat
  expectation : Expectation
  response : Option Response

/-- Python `==` between two `Rule` objects: class `Rule` defines no
`__eq__`, so comparison is object identity. -/
def rule_is (a b : Rule) : Bool := a.rid == b.rid

/-- `Rule.status`: installs `_Response(status, headers)` — no body. -/
def Rule.setStatus (rule : Rule) (status : Nat)
    (headers : Option (List (String × String))) : Rule :=
  { rule with response := some ⟨status, headers.getD [], none⟩ }

/-- `Rule.text`: installs `_Response(status, headers, text.encode('utf8'))`. -/
def Rule.setText (rule : Rule) (text : String) (status : Nat)
    (headers : Option (List (String × String))) : Rule :=
  { rule with response := some ⟨status, headers.getD [], some (encodeUtf8 text)⟩ }

/-- The rule store a `Server` owns: `self._rules` (one-shot, insertion
order) and `self._always_rules` (persistent, insertion order). -/
structure ServerState where
  rules : List Rule
  alwaysRules : List Rule

/-- `Server._add_rule`: wraps the expectation in a fresh `Rule` (response
`None`, fresh identity) and appends it to the chosen collection. -/
def add_rule (s : ServerState) (freshRid : Nat) (e : Expectation)
    (always : Bool) : ServerState × Rule :=
  let rule : Rule := ⟨freshRid, e, none⟩
  if always then ({ s with alwaysRules := s.alwaysRules ++ [rule] }, rule)
  else ({ s with rules := s.rules ++ [rule] }, rule)

/-- `Server.reset`: `self._rules.clear(); self._always_rules.clear()`. -/
def reset (_s : ServerState) : ServerState := ⟨[], []⟩

/-- Python truthiness of `target_rule in self._rules` (`in` compares by
object identity, the `rid` tag). -/
def rule_in_list (t : Rule) (rs : List Rule) : Bool :=
  rs.any (fun r => rule_is r t)

/-- `Server.assert_no_pending`: returns `true` exactly when the method
raises `PendingRequestsLeftException` — with a target rule (any `Rule`
object is truthy) when the target is in `self._rules`, without one when
`self._rules` is non-empty. `self._always_rules` is never read. -/
def assert_no_pending (s : ServerState) (target : Option Rule) : Bool :=
  match target with
  | some t => rule_in_list t s.rules
  | none => !s.rules.isEmpty

/-- `_TornadoHandler._find_rule`: the first element of
`[r for r in rules if r.matches(self.request)]`, or `None`. -/
def find_rule (rules : List Rule) (r : Request) : Option Rule :=
  match rules.filter (fun rule => rule.expectation.matches r) with
  | [] => none
  | rule :: _ => some rule

/-- Python `list.remove(x)`: deletes the first element `== x` (identity for
`Rule` objects); on the empty list Python would raise `ValueError`, which
the dispatcher never reaches since it only removes a rule it just found. -/
def remove_first (x : Rule) : List Rule → List Rule
  | [] => []
  | y :: ys => if rule_is y x then ys else y :: remove_first x ys

/-- What the handler writes back: status, headers, body bytes. -/
structure Emitted where
  status : Nat
  headers : List (String × String)
  body : List Nat
  deriving DecidableEq

/-- One observable step of the handler, in program order: the removal of a
consumed one-shot rule (`self._rules.remove(rule)`), a written response
(`set_status`/`set_header`/`write`/`finish`), or an uncaught
`AttributeError` (accessing `.code` on a `None` response in `_respond`). -/
inductive Effect where
  | removedPending (rule : Rule) : Effect
  | wrote (out : Emitted) : Effect
  | raised : Effect

/-- `_TornadoHandler._respond`: `set_status(response.code)`, the stored
headers, and the body only when `response.bytes` is truthy (non-`None` and
non-empty). -/
def emit_of (resp : Response) : Emitted :=
  ⟨resp.code, resp.headers,
    match resp.bytes with
    | some bs => if bs.isEmpty then [] else bs
    | none => []⟩

/-- The effects of `self._respond(rule.response)`: a write when the response
template was populated, an `AttributeError` (`None` has no attribute
`code`) when it never was. -/
def respond_effects : Option Response → List Effect
  | none => [Effect.raised]
  | some resp => [Effect.wrote (emit_of resp)]

/-- Hexadecimal digit character, for the byte-repr model. -/
def hexDigitChar (n : Nat) : Char :=
  if n < 10 then Char.ofNat (48 + n) else Char.ofNat (87 + n)

/-- A single quote character, as a string. -/
def squote : String := String.singleton (Char.ofNat 39)

/-- Python `repr` of one byte inside a bytes literal: printable ASCII kept,
backslash and quote escaped, the usual short escapes, hex otherwise. -/
def py_byte_escape (b : Nat) : String :=
  if b == 92 then "\\\\"
  else if b == 39 then "\\" ++ squote
  else if b == 9 then "\\t"
  else if b == 10 then "\\n"
  else if b == 13 then "\\r"
  else if 32 ≤ b && b ≤ 126 then String.singleton (Char.ofNat b)
  else "\\x" ++ String.singleton (hexDigitChar (b / 16))
    ++ String.singleton (hexDigitChar (b % 16))

/-- Model of Python `str(request.body)` on a bytes value: `b'...'`. -/
def py_bytes_str (bs : List Nat) : String :=
  "b" ++ squote ++ String.join (bs.map py_byte_escape) ++ squote

/-- The synthetic no-match answer: `set_status(500)` and the diagnostic
`'No matching rule found for ' + self.request.uri + ' body ' +
str(self.request.body)`. -/
def no_match_emitted (r : Request) : Emitted :=
  ⟨500, [],
    encodeUtf8 ("No matching rule found for " ++ r.uri ++ " body "
      ++ py_bytes_str r.body)⟩

/-- `_TornadoHandler.prepare`: find the first matching one-shot rule; if
found, remove it from `self._rules` and only then respond (the source
comments that this order avoids double consumption under concurrency);
otherwise serve the first matching persistent rule without removal;
otherwise the 500 diagnostic. Returns the mutated store and the ordered
effect trace. -/
def prepare (s : ServerState) (r : Request) : ServerState × List Effect :=
  match find_rule s.rules r with
  | some rule =>
      (⟨remove_first rule s.rules, s.alwaysRules⟩,
        Effect.removedPending rule :: respond_effects rule.response)
  | none =>
      match find_rule s.alwaysRules r with
      | some rule => (s, respond_effects rule.response)
      | none => (s, [Effect.wrote (no_match_emitted r)])

/-- A sequence of dispatches of the same request, threading the store. -/
def dispatchN (s : ServerState) (r : Request) : Nat → ServerState × List (List Effect)
  | 0 => (s, [])
  | n + 1 =>
      let step := prepare s r
      let rest := dispatchN step.1 r n
      (rest.1, step.2 :: rest.2)

/-- A sample expectation: `on_any('GET', '/')`. -/
def wExp : Expectation := ⟨"GET", some "/", [], Content.anyC⟩

/-- A sample one-shot rule shaped with `.text('hello')`. -/
def wRuleA : Rule := ⟨0, wExp, some ⟨200, [], some (encodeUtf8 "hello")⟩⟩

/-- A second sample one-shot rule shaped with `.text('Goodbye')`. -/
def wRuleB : Rule := ⟨1, wExp, some ⟨200, [], some (encodeUtf8 "Goodbye")⟩⟩

/-- A sample decoded `GET /` request with no body. -/
def wReq : Request := ⟨"GET", "/", [], [], none, [], []⟩

/-- A sample store with two queued one-shot rules for the same endpoint. -/
def wState : ServerState := ⟨[wRuleA, wRuleB], []⟩

/-- A sample store with one persistent rule only. -/
def wAlways : ServerState := ⟨[], [wRuleA]⟩

/-- A sample Files expectation payload: field `user`, one expected file. -/
def wFiles : List (String × List (String × List Nat)) :=
  [("user", [("user", encodeUtf8 "Dude")])]

/-- A sample multipart upload request carrying that file. -/
def wFilesReq : Request :=
  ⟨"POST", "/upload", [], [], none, [], [("user", [⟨"user", encodeUtf8 "Dude"⟩])]⟩

theorem match_option_eq_true {α : Type} (o : Option α) (p : α → Bool) :
    (match o with | some u => p u | none => false) = true ↔
      ∃ u, o = some u ∧ p u = true := by
  cases o <;> simp

theorem find_rule_cons (y : Rule) (ys : List Rule) (r : Request) :
    find_rule (y :: ys) r =
      if y.expectation.matches r then some y else find_rule ys r := by
  by_cases h : y.expectation.matches r = true
  · simp [find_rule, List.filter_cons, h]
  · simp only [Bool.not_eq_true] at h
    simp [find_rule, List.filter_cons, h]

theorem find_rule_some_iff (rules : List Rule) (r : Request) (rule : Rule) :
    find_rule rules r = some rule ↔
      ∃ l₁ l₂, rules = l₁ ++ rule :: l₂ ∧
        (∀ x ∈ l₁, x.expectation.matches r = false) ∧
        rule.expectation.matches r = true := by
  induction rules with
  | nil =>
      constructor
      · intro h
        simp [find_rule] at h
      · rintro ⟨l₁, l₂, heq, -, -⟩
        cases l₁ <;> simp at heq
  | cons y ys ih =>
      rw [find_rule_cons]
      by_cases h : y.expectation.matches r = true
      · simp only [h, if_true, Option.some_inj]
        constructor
        · rintro rfl
          exact ⟨[], ys, rfl, by simp, h⟩
        · rintro ⟨l₁, l₂, heq, hall, hm⟩
          cases l₁ with
          | nil =>
              simp only [List.nil_append] at heq
              injection heq with h1 h2
          | cons a l₁ =>
              simp only [List.cons_append] at heq
              injection heq with h1 h2
              have hf : y.expectation.matches r = false :=
                h1 ▸ hall a (List.mem_cons_self a l₁)
              rw [hf] at h
              simp at h
      · simp only [Bool.not_eq_true] at h
        rw [if_neg (by simp [h]), ih]
        constructor
        · rintro ⟨l₁, l₂, heq, hall, hm⟩
          refine ⟨y :: l₁, l₂, by rw [heq, List.cons_append], ?_, hm⟩
          intro x hx
          rcases List.mem_cons.mp hx with rfl | hx2
          · exact h
          · exact hall x hx2
        · rintro ⟨l₁, l₂, heq, hall, hm⟩
          cases l₁ with
          | nil =>
              simp only [List.nil_append] at heq
              injection heq with h1 h2
              rw [h1, hm] at h
              simp at h
          | cons a l₁ =>
              simp only [List.cons_append] at heq
              injection heq with h1 h2
              exact ⟨l₁, l₂, h2,
                fun x hx => hall x (List.mem_cons_of_mem a hx), hm⟩

theorem remove_first_append (rule : Rule) (l₁ l₂ : List Rule)
    (h : ∀ x ∈ l₁, rule_is x rule = false) :
    remove_first rule (l₁ ++ rule :: l₂) = l₁ ++ l₂ := by
  induction l₁ with
  | nil => simp [remove_first, rule_is]
  | cons a l₁ ih =>
      have ha := h a (List.mem_cons_self a l₁)
      have ih2 := ih (fun x hx => h x (List.mem_cons_of_mem a hx))
      simp only [List.cons_append, remove_first, ha, Bool.false_eq_true,
        if_false, List.append_eq]
      rw [ih2]

theorem rule_in_remove_first (rule : Rule) (rs : List Rule)
    (hnd : rs.Pairwise (fun a b => a.rid ≠ b.rid)) :
    rule_in_list rule (remove_first rule rs) = false := by
  induction rs with
  | nil => rfl
  | cons y ys ih =>
      rw [List.pairwise_cons] at hnd
      by_cases h : rule_is y rule = true
      · have hyr : y.rid = rule.rid := by simpa [rule_is] using h
        simp only [remove_first, h, if_true]
        simp only [rule_in_list, List.any_eq_false]
        intro b hb
        have : y.rid ≠ b.rid := hnd.1 b hb
        simp [rule_is]
        omega
      · simp only [Bool.not_eq_true] at h
        simp only [remove_first, h, Bool.false_eq_true, if_false]
        simp only [rule_in_list, List.any_cons, Bool.or_eq_false_iff]
        exact ⟨h, by simpa [rule_in_list] using ih hnd.2⟩

/-- C3: `assert_no_pending` raises exactly when the target rule is still in
the pending collection (never when it was consumed or is a standing rule);
with no target it raises exactly when the pending collection is non-empty;
in both modes the standing collection is never inspected. -/
theorem assert_no_pending_spec (s : ServerState) (t : Rule) :
    (assert_no_pending s (some t) = true ↔ rule_in_list t s.rules = true) ∧
    (assert_no_pending s none = true ↔ s.rules ≠ []) ∧
    (∀ standing : List Rule,
        assert_no_pending ⟨s.rules, standing⟩ (some t) =
          assert_no_pending s (some t)) ∧
    (∀ standing : List Rule,
        assert_no_pending ⟨s.rules, standing⟩ none =
          assert_no_pending s none) := by
  refine ⟨Iff.rfl, ?_, fun _ => rfl, fun _ => rfl⟩
  simp [assert_no_pending]

/-- C9: `reset` empties both the pending and the standing collections, and
afterwards every request (in particular every previously matching one) gets
exactly the status-500 no-match answer. -/
theorem reset_then_500 (s : ServerState) (r : Request) :
    (reset s).rules = [] ∧ (reset s).alwaysRules = [] ∧
    prepare (reset s) r = (reset s, [Effect.wrote (no_match_emitted r)]) ∧
    (no_match_emitted r).status = 500 :=
  ⟨rfl, rfl, rfl, rfl⟩

/-- C10: an expectation whose path is the empty string matches every request
path, exactly as when the path is omitted (`None`): the empty string is
falsy in `_match_path`, so it is the "any path" wildcard. -/
theorem empty_path_is_wildcard (method : String)
    (headers : List (String × String)) (c : Content) (r : Request) :
    match_path ⟨method, some "", headers, c⟩ r = true ∧
    match_path ⟨method, none, headers, c⟩ r = true ∧
    Expectation.matches ⟨method, some "", headers, c⟩ r =
      Expectation.matches ⟨method, none, headers, c⟩ r := by
  refine ⟨?_, rfl, ?_⟩
  · simp [match_path]
  · simp only [Expectation.matches]
    have h1 : match_path ⟨method, some "", headers, c⟩ r = true := by
      simp [match_path]
    rw [h1]
    rfl

/-- C7 counterexample: with an empty expected text payload the body check is
not "any body" — the request body `b'x'` (byte 120) does not match. -/
theorem text_empty_payload_rejects_body :
    match_content (Content.textC "")
      ⟨"POST", "/", [], [120], none, [], []⟩ = false := by
  simp [match_content, encodeUtf8]

/-- C7 (amended): the Text body check is always exact byte-for-byte equality
of the request body against the UTF-8 encoding of the expected payload; an
empty expected payload therefore matches exactly the requests whose body is
empty, not every request body. -/
theorem text_match_is_exact (t : String) (r : Request) :
    match_content (Content.textC t) r = (encodeUtf8 t == r.body) ∧
    (match_content (Content.textC "") r = true ↔ r.body = []) := by
  refine ⟨rfl, ?_⟩
  have h0 : encodeUtf8 "" = [] := rfl
  rw [show match_content (Content.textC "") r = (encodeUtf8 "" == r.body) from rfl,
    h0]
  constructor
  · intro hh
    exact (beq_iff_eq.mp hh).symm
  · intro hh
    rw [hh]
    rfl

/-- C6: a rule whose response template was never populated is not served as
a 200 with empty body: the dispatcher removes it and then `_respond` raises
`AttributeError` accessing `.code` on `None` (the trace ends in
`Effect.raised`, and no response is written by the handler). -/
theorem unshaped_rule_raises :
    prepare ⟨[⟨0, ⟨"GET", some "/", [], Content.anyC⟩, none⟩], []⟩
        ⟨"GET", "/", [], [], none, [], []⟩ =
      (⟨[], []⟩,
        [Effect.removedPending ⟨0, ⟨"GET", some "/", [], Content.anyC⟩, none⟩,
         Effect.raised]) := rfl

theorem bool_or_left_comm (a b c : Bool) : (a || (b || c)) = (b || (a || c)) := by
  cases a <;> cases b <;> simp

theorem bool_and_left_comm (a b c : Bool) : (a && (b && c)) = (b && (a && c)) := by
  cases a <;> cases b <;> simp

theorem jeq_mem_perm (k : String) (v : Json) {xs ys : List (String × Json)}
    (h : xs.Perm ys) : jeq_mem k v xs = jeq_mem k v ys := by
  induction h with
  | nil => rfl
  | cons a _ ih =>
      obtain ⟨a1, a2⟩ := a
      simp only [jeq_mem]
      rw [ih]
  | swap x y l =>
      obtain ⟨x1, x2⟩ := x
      obtain ⟨y1, y2⟩ := y
      simp only [jeq_mem]
      exact bool_or_left_comm _ _ _
  | trans _ _ ih1 ih2 => exact ih1.trans ih2

theorem has_key_perm (k : String) {xs ys : List (String × Json)}
    (h : xs.Perm ys) : has_key k xs = has_key k ys := by
  induction h with
  | nil => rfl
  | cons a _ ih =>
      obtain ⟨a1, a2⟩ := a
      simp only [has_key]
      rw [ih]
  | swap x y l =>
      obtain ⟨x1, x2⟩ := x
      obtain ⟨y1, y2⟩ := y
      simp only [has_key]
      exact bool_or_left_comm _ _ _
  | trans _ _ ih1 ih2 => exact ih1.trans ih2

theorem keys_sub_perm (zs : List (String × Json)) {xs ys : List (String × Json)}
    (h : xs.Perm ys) : keys_sub xs zs = keys_sub ys zs := by
  induction h with
  | nil => rfl
  | cons a _ ih =>
      obtain ⟨a1, a2⟩ := a
      simp only [keys_sub]
      rw [ih]
  | swap x y l =>
      obtain ⟨x1, x2⟩ := x
      obtain ⟨y1, y2⟩ := y
      simp only [keys_sub]
      exact bool_and_left_comm _ _ _
  | trans _ _ ih1 ih2 => exact ih1.trans ih2

theorem jeq_sub_perm (zs : List (String × Json)) {xs ys : List (String × Json)}
    (h : xs.Perm ys) : jeq_sub zs xs = jeq_sub zs ys := by
  induction zs with
  | nil => simp [jeq_sub]
  | cons p zs ih =>
      obtain ⟨k, v⟩ := p
      simp only [jeq_sub]
      rw [jeq_mem_perm k v h, ih]

/-- C4: a Json expectation never errors on a malformed body — parse failure
is a plain non-match (`false`), so the request falls through to the other
rules or the no-match 500; on successful parse the check is the structural
Python-dict equality `jeq` of the expected value against the parsed one,
whose outcome is independent of object key order, and the check depends only
on the parse outcome (hence not on the whitespace of the body text). -/
theorem json_expectation_spec :
    (∀ e : Json, json_match_content e none = false) ∧
    (∀ e v : Json, json_match_content e (some v) = jeq e v) ∧
    (∀ (e : Json) (xs ys : List (String × Json)), xs.Perm ys →
        jeq e (Json.obj xs) = jeq e (Json.obj ys)) ∧
    (∀ (e : Json) (r₁ r₂ : Request), r₁.bodyJson = r₂.bodyJson →
        match_content (Content.jsonC e) r₁ =
          match_content (Content.jsonC e) r₂) := by
  refine ⟨fun e => rfl, fun e v => rfl, ?_, ?_⟩
  · intro e xs ys h
    rw [jeq.eq_def, jeq.eq_def]
    cases e with
    | null => rfl
    | bool b => rfl
    | num n => rfl
    | str s => rfl
    | arr es => rfl
    | obj zs =>
        show (jeq_sub zs xs && keys_sub xs zs) = (jeq_sub zs ys && keys_sub ys zs)
        rw [jeq_sub_perm zs h, keys_sub_perm zs h]
  · intro e r₁ r₂ h
    show json_match_content e r₁.bodyJson = json_match_content e r₂.bodyJson
    rw [h]

/-- Witness for C4: concrete evaluation — parse failure is a non-match, and
swapping the key order of the parsed object does not change the outcome. -/
theorem json_expectation_spec_witness :
    json_match_content (Json.obj [("foo", Json.str "bar")]) none = false ∧
    jeq (Json.obj [("foo", Json.str "bar")])
        (Json.obj [("a", Json.num 1), ("b", Json.num 2)]) =
      jeq (Json.obj [("foo", Json.str "bar")])
        (Json.obj [("b", Json.num 2), ("a", Json.num 1)]) :=
  ⟨json_expectation_spec.1 _,
   json_expectation_spec.2.2.1 _ _ _
     (List.Perm.swap ("b", Json.num 2) ("a", Json.num 1) [])⟩

/-- C1: dispatch scans the one-shot rules in insertion order and consumes
exactly the first match (the earliest-registered not-yet-consumed rule
wins), removing it from the pending collection and returning its response;
with no pending match it scans the standing rules in insertion order and
returns the first match's response without mutating anything; with no match
at all it falls to the no-match branch. -/
theorem dispatch_find_and_consume (s : ServerState) (r : Request)
    (hnd : s.rules.Pairwise (fun a b => a.rid ≠ b.rid)) :
    (∀ rule, find_rule s.rules r = some rule →
        ∃ l₁ l₂, s.rules = l₁ ++ rule :: l₂ ∧
          (∀ x ∈ l₁, x.expectation.matches r = false) ∧
          rule.expectation.matches r = true ∧
          prepare s r = (⟨l₁ ++ l₂, s.alwaysRules⟩,
            Effect.removedPending rule :: respond_effects rule.response)) ∧
    (find_rule s.rules r = none →
        ∀ rule, find_rule s.alwaysRules r = some rule →
          (∃ l₁ l₂, s.alwaysRules = l₁ ++ rule :: l₂ ∧
            (∀ x ∈ l₁, x.expectation.matches r = false) ∧
            rule.expectation.matches r = true) ∧
          prepare s r = (s, respond_effects rule.response)) ∧
    (find_rule s.rules r = none → find_rule s.alwaysRules r = none →
        prepare s r = (s, [Effect.wrote (no_match_emitted r)])) := by
  refine ⟨?_, ?_, ?_⟩
  · intro rule hfr
    obtain ⟨l₁, l₂, heq, hall, hm⟩ := (find_rule_some_iff s.rules r rule).mp hfr
    refine ⟨l₁, l₂, heq, hall, hm, ?_⟩
    have hdist : ∀ x ∈ l₁, rule_is x rule = false := by
      intro x hx
      rw [heq, List.pairwise_append] at hnd
      have hne : x.rid ≠ rule.rid :=
        hnd.2.2 x hx rule (List.mem_cons_self rule l₂)
      show (x.rid == rule.rid) = false
      exact beq_eq_false_iff_ne.mpr hne
    have hrem : remove_first rule s.rules = l₁ ++ l₂ := by
      rw [heq]
      exact remove_first_append rule l₁ l₂ hdist
    simp only [prepare, hfr]
    rw [hrem]
  · intro hnone rule hfa
    refine ⟨(find_rule_some_iff _ _ _).mp hfa, ?_⟩
    simp only [prepare, hnone, hfa]
  · intro h1 h2
    simp only [prepare, h1, h2]

/-- Witness for C1: a store queuing two one-shot rules for `GET /` serves
and consumes the first-registered one. -/
theorem dispatch_find_and_consume_witness :
    ∃ l₁ l₂, wState.rules = l₁ ++ wRuleA :: l₂ ∧
      (∀ x ∈ l₁, x.expectation.matches wReq = false) ∧
      wRuleA.expectation.matches wReq = true ∧
      prepare wState wReq = (⟨l₁ ++ l₂, wState.alwaysRules⟩,
        Effect.removedPending wRuleA :: respond_effects wRuleA.response) :=
  (dispatch_find_and_consume wState wReq
      (by simp [wState, wRuleA, wRuleB, wExp, List.pairwise_cons])).1
    wRuleA rfl

/-- C2: whenever the dispatcher's effect trace both removes a one-shot rule
and writes a response, the removal strictly precedes the write, and the
store returned together with the trace no longer holds the consumed rule —
the dispatcher never writes for a one-shot rule still in the pending
collection. -/
theorem remove_before_write (s : ServerState) (r : Request)
    (hnd : s.rules.Pairwise (fun a b => a.rid ≠ b.rid))
    (i j : Nat) (rule : Rule) (out : Emitted)
    (hi : (prepare s r).2.get? i = some (Effect.removedPending rule))
    (hj : (prepare s r).2.get? j = some (Effect.wrote out)) :
    i < j ∧ rule_in_list rule (prepare s r).1.rules = false := by
  rcases hfr : find_rule s.rules r with _ | rc
  · exfalso
    rcases hfa : find_rule s.alwaysRules r with _ | ra
    · simp only [prepare, hfr, hfa] at hi
      rcases i with _ | i <;> simp at hi
    · simp only [prepare, hfr, hfa] at hi
      rcases hresp : ra.response with _ | resp <;>
        simp only [hresp, respond_effects] at hi <;>
        rcases i with _ | i <;> simp at hi
  · have hieq : i = 0 ∧ rule = rc := by
      simp only [prepare, hfr] at hi
      rcases i with _ | i
      · simp only [List.get?_cons_zero, Option.some_inj] at hi
        injection hi with h2
        exact ⟨rfl, h2.symm⟩
      · exfalso
        simp only [List.get?_cons_succ] at hi
        rcases hresp : rc.response with _ | resp <;>
          simp only [hresp, respond_effects] at hi <;>
          rcases i with _ | i <;> simp at hi
    have hjpos : 0 < j := by
      rcases j with _ | j
      · exfalso
        simp only [prepare, hfr, List.get?_cons_zero, Option.some_inj] at hj
        exact Effect.noConfusion hj
      · omega
    refine ⟨hieq.1 ▸ hjpos, ?_⟩
    rw [hieq.2]
    have hst : (prepare s r).1.rules = remove_first rc s.rules := by
      simp only [prepare, hfr]
    rw [hst]
    exact rule_in_remove_first rc s.rules hnd

/-- Witness for C2 on the sample store: the removal (trace index 0) precedes
the write (trace index 1) and the consumed rule is gone from pending. -/
theorem remove_before_write_witness :
    0 < 1 ∧ rule_in_list wRuleA (prepare wState wReq).1.rules = false :=
  remove_before_write wState wReq
    (by simp [wState, wRuleA, wRuleB, wExp, List.pairwise_cons]) 0 1 wRuleA
    ⟨200, [], encodeUtf8 "hello"⟩ rfl rfl

/-- C5: a persistent rule serves each of any number of successive matching
dispatches with its response while the store — in particular the standing
collection — is never mutated, and persistent rules are invisible to
`assert_no_pending` with no target argument. -/
theorem always_rule_persistent (s : ServerState) (r : Request) (rule : Rule)
    (hp : find_rule s.rules r = none)
    (hs : find_rule s.alwaysRules r = some rule) :
    (∀ n : Nat, dispatchN s r n =
        (s, List.replicate n (respond_effects rule.response))) ∧
    (∀ standing : List Rule,
        assert_no_pending ⟨s.rules, standing⟩ none =
          assert_no_pending s none) := by
  have hstep : prepare s r = (s, respond_effects rule.response) := by
    simp only [prepare, hp, hs]
  refine ⟨?_, fun _ => rfl⟩
  intro n
  induction n with
  | zero => rfl
  | succ n ih => simp only [dispatchN, hstep, ih, List.replicate_succ]

/-- Witness for C5: two successive dispatches against a store holding only
one persistent rule both serve it and leave the store unchanged. -/
theorem always_rule_persistent_witness :
    dispatchN wAlways wReq 2 =
      (wAlways, List.replicate 2 (respond_effects wRuleA.response)) :=
  (always_rule_persistent wAlways wReq wRuleA rfl rfl).1 2

theorem alook_cons_ne {α : Type} (k k₀ : String) (v : α)
    (rest : List (String × α)) (h : k₀ ≠ k) :
    alook k ((k₀, v) :: rest) = alook k rest := by
  simp [alook, h]

theorem files_fields_ok_ignores (files : List (String × List (String × List Nat)))
    (f₀ : String) (fl : List HttpFile) (r : Request)
    (h : ∀ fe ∈ files, fe.1 ≠ f₀) :
    files_fields_ok files { r with files := (f₀, fl) :: r.files } =
      files_fields_ok files r := by
  induction files with
  | nil => rfl
  | cons fe fes ih =>
      have h1 := h fe (List.mem_cons_self fe fes)
      have htail := ih (fun x hx => h x (List.mem_cons_of_mem fe hx))
      simp only [files_fields_ok, List.all_cons] at htail ⊢
      rw [htail]
      congr 1
      rw [alook_cons_ne fe.1 f₀ fl r.files (Ne.symm h1)]

/-- C8: the Files body check passes exactly when the nested form constraint
(when truthy) passes as a Form check and, for every expected field, the
request carries a non-empty upload list under that field in which every
expected (filename, content-bytes) pair is matched by at least one uploaded
file; uploaded fields the expectation does not mention never affect the
outcome. -/
theorem files_expectation_spec
    (files : List (String × List (String × List Nat)))
    (form : Option (List (String × List String))) (r : Request) :
    (match_content (Content.filesC files form) r = true ↔
      ((form_truthy form = true →
          dict_eq_form (form_encoded (form.getD [])) r.arguments = true) ∧
        ∀ fe ∈ files, ∃ uploaded,
          alook fe.1 r.files = some uploaded ∧ uploaded ≠ [] ∧
          ∀ fc ∈ fe.2, ∃ f ∈ uploaded,
            f.filename = fc.1 ∧ f.body = fc.2)) ∧
    (∀ (f₀ : String) (fl : List HttpFile), (∀ fe ∈ files, fe.1 ≠ f₀) →
        match_content (Content.filesC files form)
            { r with files := (f₀, fl) :: r.files } =
          match_content (Content.filesC files form) r) := by
  constructor
  · show ((if form_truthy form
        then dict_eq_form (form_encoded (form.getD [])) r.arguments
        else true) && files_fields_ok files r) = true ↔ _
    rw [Bool.and_eq_true]
    have hiff1 : (if form_truthy form
          then dict_eq_form (form_encoded (form.getD [])) r.arguments
          else true) = true ↔
        (form_truthy form = true →
          dict_eq_form (form_encoded (form.getD [])) r.arguments = true) := by
      cases hft : form_truthy form <;> simp [hft]
    have hiff2 : files_fields_ok files r = true ↔
        ∀ fe ∈ files, ∃ uploaded,
          alook fe.1 r.files = some uploaded ∧ uploaded ≠ [] ∧
          ∀ fc ∈ fe.2, ∃ f ∈ uploaded,
            f.filename = fc.1 ∧ f.body = fc.2 := by
      rw [files_fields_ok, List.all_eq_true]
      refine forall_congr' fun fe => ?_
      refine imp_congr_right fun _ => ?_
      rcases halook : alook fe.1 r.files with _ | u
      · simp
      · simp [Bool.and_eq_true, compare_files, List.all_eq_true,
          file_in_uploaded, List.any_eq_true, beq_iff_eq]
    rw [hiff1, hiff2]
  · intro f₀ fl h
    simp only [match_content]
    congr 1
    exact files_fields_ok_ignores files f₀ fl r h

/-- Witness for C8: the sample single-file upload satisfies the
characterization's right-hand side concretely. -/
theorem files_expectation_spec_witness :
    (form_truthy none = true →
        dict_eq_form (form_encoded (Option.getD none [])) wFilesReq.arguments
          = true) ∧
    (∀ fe ∈ wFiles, ∃ uploaded,
        alook fe.1 wFilesReq.files = some uploaded ∧ uploaded ≠ [] ∧
        ∀ fc ∈ fe.2, ∃ f ∈ uploaded,
          f.filename = fc.1 ∧ f.body = fc.2) :=
  (files_expectation_spec wFiles none wFilesReq).1.mp rfl

end Httpsrv
